import Mathlib

/-!
Verification development for the configuration-merging core
(src/core/util/options.js): a shallow embedding of the option-merge
strategies, normalizers, merge driver and asset resolver, together with
theorems about their behavior.

JavaScript values are modelled by the inductive type JSVal.  Objects are
insertion-ordered association lists of own properties together with an
optional prototype; functions are modelled symbolically (an opaque tag, a
constant producer, a throwing producer, and the two merged data producers
built by mergeDataOrFn), which is enough to evaluate every producer the
source ever builds.  Machine numbers are modelled as Int (the source never
does arithmetic on option values).  Fallible operations (property access on
nullish values, producer invocation) live in Except.
-/

set_option maxHeartbeats 1000000

mutual

/-- A JavaScript value, as used by the options-merging core. -/
inductive JSVal where
  | undefined : JSVal
  | null : JSVal
  | bool : Bool → JSVal
  | num : Int → JSVal
  | str : String → JSVal
  | arr : List JSVal → JSVal
  /-- An object: own enumerable properties in insertion order plus an
  optional prototype (Object.create linking). -/
  | obj : List (String × JSVal) → Option JSVal → JSVal
  | fn : Fn → JSVal

/-- Function values.  The source only ever needs to invoke data/provide
producers, so functions are modelled symbolically: an opaque function
(never invoked by the core), a constant producer, a producer that throws,
and the two closures built by mergeDataOrFn. -/
inductive Fn where
  /-- An opaque callable (a lifecycle hook, a component constructor, the
  String constructor, ...): the core stores it but never calls it. -/
  | ctor : String → Fn
  /-- A caller-supplied producer returning a fixed value (ignores this). -/
  | const : JSVal → Fn
  /-- A caller-supplied producer that throws when invoked. -/
  | throwing : String → Fn
  /-- The closure mergedDataFn built by mergeDataOrFn without a vm. -/
  | mergedDataFn : JSVal → JSVal → Fn
  /-- The closure mergedInstanceDataFn built by mergeDataOrFn with a vm:
  child value, parent value, vm. -/
  | mergedInstanceDataFn : JSVal → JSVal → JSVal → Fn

end

/-- Errors observable by a caller: TypeErrors raised by the runtime and
failures thrown by caller-supplied producer functions. -/
inductive JSErr where
  | typeError : String → JSErr
  | userError : String → JSErr

/-- JavaScript truthiness. -/
def truthy : JSVal → Bool
  | .undefined => false
  | .null => false
  | .bool b => b
  | .num n => n != 0
  | .str s => s ≠ ""
  | .arr _ => true
  | .obj _ _ => true
  | .fn _ => true

/-- The value === undefined test used by defaultStrat. -/
def isUndefined : JSVal → Bool
  | .undefined => true
  | _ => false

/-- Nullish test (undefined or null): property access on these throws. -/
def isNullish : JSVal → Bool
  | .undefined => true
  | .null => true
  | _ => false

/-- typeof v === function. -/
def isFunction : JSVal → Bool
  | .fn _ => true
  | _ => false

/-- Array.isArray. -/
def isArr : JSVal → Bool
  | .arr _ => true
  | _ => false

/-- typeof v === string. -/
def isStr : JSVal → Bool
  | .str _ => true
  | _ => false

/-- isPlainObject from shared/util: toString gives [object Object], which
holds exactly for (non-array, non-function) objects. -/
def isPlainObject : JSVal → Bool
  | .obj _ _ => true
  | _ => false

/-- First-match lookup in an association list of own properties. -/
def alGet : List (String × JSVal) → String → Option JSVal
  | [], _ => none
  | (k1, v) :: rest, k => if k = k1 then some v else alGet rest k

/-- Property write on an association list: replace in place when the key
exists, append otherwise (JavaScript own-property insertion order). -/
def alSet : List (String × JSVal) → String → JSVal → List (String × JSVal)
  | [], k, v => [(k, v)]
  | (k1, v1) :: rest, k, v =>
      if k1 = k then (k, v) :: rest else (k1, v1) :: alSet rest k v

/-- Numeric property keys ("0", "1", ...), parsed at the character
level. -/
def strToNatCore : List Char → Nat → Option Nat
  | [], acc => some acc
  | c :: rest, acc =>
      if c.isDigit then strToNatCore rest (acc * 10 + (c.toNat - 48))
      else none

def strToNat? (s : String) : Option Nat :=
  match s.data with
  | [] => none
  | l => strToNatCore l 0

/-- Own-property test (hasOwn from shared/util) on non-nullish receivers.
Arrays and strings own their indices and length; other primitives box to
objects with no own enumerable properties. -/
def hasOwnB : JSVal → String → Bool
  | .obj own _, k => (alGet own k).isSome
  | .arr es, k =>
      if k = "length" then true
      else match strToNat? k with
        | some i => i < es.length
        | none => false
  | .str s, k =>
      if k = "length" then true
      else match strToNat? k with
        | some i => i < s.length
        | none => false
  | _, _ => false

/-- Property read v[k], traversing the prototype chain; missing
properties give undefined.  (Reads on nullish receivers throw; the
Except-level wrappers below model that and only call getProp on
non-nullish values.) -/
def getProp : JSVal → String → JSVal
  | .obj own proto, k =>
      match alGet own k with
      | some x => x
      | none =>
          match proto with
          | some p => getProp p k
          | none => .undefined
  | .arr es, k =>
      if k = "length" then .num es.length
      else match strToNat? k with
        | some i => es.getD i .undefined
        | none => .undefined
  | .str s, k =>
      if k = "length" then .num s.length
      else match strToNat? k with
        | some i =>
            if i < s.length then .str (String.singleton (s.data.getD i ' '))
            else .undefined
        | none => .undefined
  | _, _ => .undefined

/-- Property write v[k] = x (or the reactive set collaborator, which for
this value model introduces or replaces the own property).  Writes on
primitives are silently dropped, as in non-strict mode. -/
def setJS : JSVal → String → JSVal → JSVal
  | .obj own p, k, v => .obj (alSet own k v) p
  | .arr es, k, v =>
      (match strToNat? k with
       | some i => .arr (es.set i v)
       | none => .arr es)
  | x, _, _ => x

/-- Object.keys: own enumerable keys only. -/
def objRawKeys : JSVal → List String
  | .obj own _ => own.map Prod.fst
  | .arr es => (List.range es.length).map (fun i => Nat.repr i)
  | .str s => (List.range s.length).map (fun i => Nat.repr i)
  | _ => []

/-- Keys of the whole prototype chain in enumeration order (with
possible shadowing duplicates, removed by forInKeys). -/
def enumChainKeys : JSVal → List String
  | .obj own (some p) => own.map Prod.fst ++ enumChainKeys p
  | .obj own none => own.map Prod.fst
  | .arr es => (List.range es.length).map (fun i => Nat.repr i)
  | .str s => (List.range s.length).map (fun i => Nat.repr i)
  | _ => []

/-- Keep the first occurrence of each key. -/
def dedupFirst (seen : List String) : List String → List String
  | [] => []
  | k :: rest =>
      if seen.contains k then dedupFirst seen rest
      else k :: dedupFirst (k :: seen) rest

/-- The keys a for-in loop visits: own chain keys, shadowed duplicates
skipped, own before inherited. -/
def forInKeys (v : JSVal) : List String :=
  dedupFirst [] (enumChainKeys v)

/-- The (key, value) pairs a for-in loop reads. -/
def forInEntries (v : JSVal) : List (String × JSVal) :=
  (forInKeys v).map (fun k => (k, getProp v k))

/-- extend from shared/util: for (key in src) dst[key] = src[key]. -/
def extendJS (dst src : JSVal) : JSVal :=
  (forInKeys src).foldl (fun acc k => setJS acc k (getProp src k)) dst

/-- The elements of an array value (empty for non-arrays). -/
def arrElems : JSVal → List JSVal
  | .arr es => es
  | _ => []

/-- camelize from shared/util: replace -(\w) by the upper-cased word
character (a dash not followed by a word character is kept). -/
def isWordChar (c : Char) : Bool :=
  c.isAlphanum || c = '_'

def camelizeChars : List Char → List Char
  | [] => []
  | '-' :: c :: rest =>
      if isWordChar c then c.toUpper :: camelizeChars rest
      else '-' :: camelizeChars (c :: rest)
  | c :: rest => c :: camelizeChars rest

def camelize (s : String) : String :=
  ⟨camelizeChars s.data⟩

/-- capitalize from shared/util: upper-case the first character. -/
def capitalize (s : String) : String :=
  match s.data with
  | [] => s
  | c :: rest => ⟨c.toUpper :: rest⟩

/-- The ToString coercion (used when a value becomes a property key and
by string concatenation): arrays join their stringified elements with
commas, plain objects give the object tag; function source text is not
modelled and is approximated by a fixed tag. -/
def jsToString : JSVal → String
  | .str s => s
  | .num n => toString n
  | .bool b => if b then "true" else "false"
  | .null => "null"
  | .undefined => "undefined"
  | .arr es => String.intercalate "," (es.attach.map (fun x => jsToString x.1))
  | .obj _ _ => "[object Object]"
  | .fn _ => "function"
termination_by v => sizeOf v
decreasing_by
  simp_wf
  have := List.sizeOf_lt_of_mem x.2
  omega

/-!
## mergeData (options.js lines 109-124)

Helper that recursively merges two data objects together.  The source
mutates dst in place; the model returns the updated dst together with the
list of (key, value) calls made to the external reactive setter (set is
called exactly when a source key is not an own key of the destination).
The recursion descends through Object.keys of the source, so the model
recurses structurally on the source value.
-/

mutual

/-- mergeData(dst, src): if (!src) return dst; otherwise walk
Object.keys(src).  Returns the updated destination and the set-call log. -/
def mergeData (dst src : JSVal) : JSVal × List (String × JSVal) :=
  match src with
  | .obj own _ => mergeDataEntries dst own
  | .arr es => mergeDataElems dst 0 es
  | .str s => mergeDataChars dst 0 s.data
  | _ => (dst, [])

/-- One step per own (key, value) pair of an object source. -/
def mergeDataEntries (dst : JSVal) :
    List (String × JSVal) → JSVal × List (String × JSVal)
  | [] => (dst, [])
  | (k, fromVal) :: rest =>
      let toVal := getProp dst k
      if hasOwnB dst k = false then
        let step := mergeDataEntries (setJS dst k fromVal) rest
        (step.1, (k, fromVal) :: step.2)
      else if isPlainObject toVal && isPlainObject fromVal then
        let sub := mergeData toVal fromVal
        let step := mergeDataEntries (setJS dst k sub.1) rest
        (step.1, sub.2 ++ step.2)
      else
        mergeDataEntries dst rest

/-- Same walk for an array source (Object.keys of an array is its index
strings). -/
def mergeDataElems (dst : JSVal) (i : Nat) :
    List JSVal → JSVal × List (String × JSVal)
  | [] => (dst, [])
  | v :: rest =>
      let k := Nat.repr i
      let toVal := getProp dst k
      if hasOwnB dst k = false then
        let step := mergeDataElems (setJS dst k v) (i + 1) rest
        (step.1, (k, v) :: step.2)
      else if isPlainObject toVal && isPlainObject v then
        let sub := mergeData toVal v
        let step := mergeDataElems (setJS dst k sub.1) (i + 1) rest
        (step.1, sub.2 ++ step.2)
      else
        mergeDataElems dst (i + 1) rest

/-- Same walk for a string source (index keys mapping to one-character
strings, which are never plain objects, so no recursion is possible). -/
def mergeDataChars (dst : JSVal) (i : Nat) :
    List Char → JSVal × List (String × JSVal)
  | [] => (dst, [])
  | c :: rest =>
      let k := Nat.repr i
      let fromVal := JSVal.str (String.singleton c)
      if hasOwnB dst k = false then
        let step := mergeDataChars (setJS dst k fromVal) (i + 1) rest
        (step.1, (k, fromVal) :: step.2)
      else
        mergeDataChars dst (i + 1) rest

end

/-!
## Producer invocation (the closures of mergeDataOrFn, lines 129-169)
-/

mutual

/-- Invoke a function value.  mergedDataFn returns
mergeData(childResult, parentResult); when the child result is nullish
while the parent result is truthy with at least one key, the first
property read dst[key] inside mergeData throws a TypeError, which the
guard reproduces.  mergedInstanceDataFn returns the merged result when
the instance data is truthy and the default data otherwise. -/
def callFn : Fn → JSVal → Except JSErr JSVal
  | .ctor _, _ => .ok .undefined
  | .const v, _ => .ok v
  | .throwing m, _ => .error (.userError m)
  | .mergedDataFn childVal parentVal, thisv =>
      match evalSide childVal thisv with
      | .error e => .error e
      | .ok cRes =>
          match evalSide parentVal thisv with
          | .error e => .error e
          | .ok pRes =>
              if isNullish cRes && (objRawKeys pRes ≠ []) then
                .error (.typeError "cannot read properties of a nullish data object")
              else
                .ok (mergeData cRes pRes).1
  | .mergedInstanceDataFn childVal parentVal vmv, _ =>
      match evalSide childVal vmv with
      | .error e => .error e
      | .ok instanceData =>
          match evalSide parentVal vmv with
          | .error e => .error e
          | .ok defaultData =>
              if truthy instanceData then
                .ok (mergeData instanceData defaultData).1
              else
                .ok defaultData

/-- typeof v === function ? v.call(thisArg, thisArg) : v. -/
def evalSide (v : JSVal) (thisv : JSVal) : Except JSErr JSVal :=
  match v with
  | .fn f => callFn f thisv
  | _ => .ok v

end

/-!
## mergeDataOrFn and the data strategy (lines 129-189)
-/

/-- mergeDataOrFn(parentVal, childVal, vm?): in a Vue.extend merge (no
vm), an absent side returns the other side and two present sides build
mergedDataFn; with a vm, mergedInstanceDataFn is always built. -/
def mergeDataOrFn (parentVal childVal : JSVal) (vm : Option JSVal) : JSVal :=
  match vm with
  | none =>
      if truthy childVal = false then parentVal
      else if truthy parentVal = false then childVal
      else .fn (.mergedDataFn childVal parentVal)
  | some vmv => .fn (.mergedInstanceDataFn childVal parentVal vmv)

/-- strats.data: without a vm, a truthy non-function child value is
rejected (dev warning) and the parent value is returned unchanged;
otherwise delegate to mergeDataOrFn. -/
def stratData (parentVal childVal : JSVal) (vm : Option JSVal) : JSVal :=
  match vm with
  | none =>
      if truthy childVal && (isFunction childVal = false) then parentVal
      else mergeDataOrFn parentVal childVal none
  | some vmv => mergeDataOrFn parentVal childVal (some vmv)

/-!
## The remaining strategies (lines 93-299)
-/

/-- Default strategy (lines 524-528): the child value unless it is
undefined. -/
def defaultStrat (parentVal childVal : JSVal) : JSVal :=
  if isUndefined childVal then parentVal else childVal

/-- parentVal.concat(childVal).  An array parent appends the child
elements (or the child itself when it is not an array); a string parent
does JavaScript string concatenation.  Any other truthy parent has no
concat method and THROWS a TypeError in the source; the model returns
undefined there and every theorem below keeps that shape out of its
domain (see stratNoThrow), so no result is ever claimed where the
source throws. -/
def concatJS (parentVal childVal : JSVal) : JSVal :=
  match parentVal with
  | .arr es =>
      match childVal with
      | .arr es2 => .arr (es ++ es2)
      | v => .arr (es ++ [v])
  | .str s => .str (s ++ jsToString childVal)
  | _ => .undefined

def mergeHook (parentVal childVal : JSVal) : JSVal :=
  if truthy childVal then
    if truthy parentVal then concatJS parentVal childVal
    else if isArr childVal then childVal
    else .arr [childVal]
  else parentVal

/-- mergeAssets (lines 218-231): a fresh object whose prototype is the
parent registry (or null), extended with the child own entries when a
child value is present.  The dev-mode object-shape assertion is a
warning only and does not change the value. -/
def mergeAssets (parentVal childVal : JSVal) : JSVal :=
  let res := JSVal.obj [] (if truthy parentVal then some parentVal else none)
  if truthy childVal then extendJS res childVal else res

/-- strats.watch (lines 243-271).  nativeWatch is the Firefox
Object.prototype.watch leak; in the modelled environment it is
undefined, so the two sentinel comparisons are the identity. -/
def stratWatchLoop (childVal : JSVal) (ret : JSVal) :
    List String → JSVal
  | [] => ret
  | k :: rest =>
      let parent0 := getProp ret k
      let child0 := getProp childVal k
      let parent1 :=
        if truthy parent0 && (isArr parent0 = false) then .arr [parent0]
        else parent0
      let merged :=
        if truthy parent1 then concatJS parent1 child0
        else if isArr child0 then child0
        else .arr [child0]
      stratWatchLoop childVal (setJS ret k merged) rest

def stratWatch (parentVal childVal : JSVal) : JSVal :=
  if truthy childVal = false then
    .obj [] (if truthy parentVal then some parentVal else none)
  else if truthy parentVal = false then childVal
  else
    let ret := extendJS (.obj [] none) parentVal
    stratWatchLoop childVal ret (forInKeys childVal)

/-- strats.props / strats.methods / strats.inject / strats.computed
(lines 277-298): a prototype-less object holding the parent entries
overwritten by the child entries. -/
def stratObjHash (parentVal childVal : JSVal) : JSVal :=
  if truthy parentVal = false then childVal
  else
    let ret := extendJS (.obj [] none) parentVal
    if truthy childVal then extendJS ret childVal else ret

/-- strats.el / strats.propsData (lines 95-103): dev-mode warning when
no vm, then the default strategy. -/
def stratElPropsData (parentVal childVal : JSVal) : JSVal :=
  defaultStrat parentVal childVal

/-- LIFECYCLE_HOOKS from shared/constants.  Modelled from the spec: the
constant list of lifecycle hook field names is supplied externally
(shared/constants is not part of this repository). -/
def lifecycleHooks : List String :=
  ["beforeCreate", "created", "beforeMount", "mounted", "beforeUpdate",
   "updated", "beforeDestroy", "destroyed", "activated", "deactivated",
   "errorCaptured"]

/-- ASSET_TYPES from shared/constants, each suffixed with s to form the
actual field name.  Modelled from the spec: category component gives
field components, and so on. -/
def assetFields : List String :=
  ["components", "directives", "filters"]

/-- A merge strategy: (parentValue, childValue, vm?, fieldName) to the
merged value. -/
def Strat : Type :=
  JSVal → JSVal → Option JSVal → String → JSVal

/-- The strategy registry contents after module load (config
.optionMergeStrategies populated by options.js in dev mode). -/
def stratsLookup (k : String) : Option Strat :=
  if k = "el" || k = "propsData" then
    some (fun p c _ _ => stratElPropsData p c)
  else if k = "data" then
    some (fun p c vm _ => stratData p c vm)
  else if lifecycleHooks.contains k then
    some (fun p c _ _ => mergeHook p c)
  else if assetFields.contains k then
    some (fun p c _ _ => mergeAssets p c)
  else if k = "watch" then
    some (fun p c _ _ => stratWatch p c)
  else if k = "props" || k = "methods" || k = "inject" || k = "computed" then
    some (fun p c _ _ => stratObjHash p c)
  else if k = "provide" then
    some (fun p c vm _ => mergeDataOrFn p c vm)
  else
    none

/-- strats[key] || defaultStrat. -/
def stratFor (k : String) : Strat :=
  (stratsLookup k).getD (fun p c _ _ => defaultStrat p c)

/-- A sufficient condition on a field's parent and child values for the
registered strategy to complete in the source without throwing.
Outside it the source can throw: a lifecycle-hook merge calls
parentVal.concat, which throws on a truthy non-array non-string parent
(a string parent concatenates as a string instead of as an array), and
the asset and watch strategies call Object.create(parentVal), which
throws on a truthy primitive parent.  The shapes admitted here (hook
parents absent or arrays, asset parents absent or plain objects, watch
parents absent or plain objects unless a child value is present) are
what the data model guarantees and what mergeOptions itself produces;
theorems that assert completion of the field-merging pass hypothesize
this predicate. -/
def stratNoThrow (k : String) (pv cv : JSVal) : Bool :=
  if lifecycleHooks.contains k then
    !truthy cv || !truthy pv || isArr pv
  else if assetFields.contains k then
    !truthy pv || isPlainObject pv
  else if k = "watch" then
    truthy cv || !truthy pv || isPlainObject pv
  else
    true

/-!
## Normalizers (lines 334-438)

Each normalizer returns the updated options object together with the
warning messages it emitted (the warning sink is fire-and-forget, so the
messages are data with no control-flow effect).  Message texts are
abbreviated forms of the source texts.
-/

def propsArrayMsg : String :=
  "props must be strings when using array syntax."

def invalidPropsMsg : String :=
  "Invalid value for option props: expected an Array or an Object."

def invalidInjectMsg : String :=
  "Invalid value for option inject: expected an Array or an Object."

/-- The array-form walk of normalizeProps.  The source iterates the
array backwards (i = props.length; while (i--)), so the caller passes
the reversed element list. -/
def normalizePropsArr (acc : JSVal) (ws : List String) :
    List JSVal → JSVal × List String
  | [] => (acc, ws)
  | v :: rest =>
      match v with
      | .str s =>
          normalizePropsArr
            (setJS acc (camelize s) (.obj [("type", .null)] none)) ws rest
      | _ => normalizePropsArr acc (ws ++ [propsArrayMsg]) rest

/-- The object-form walk of normalizeProps: res[camelize key] =
isPlainObject(val) ? val : (type: val). -/
def normalizePropsObj (acc : JSVal) : List (String × JSVal) → JSVal
  | [] => acc
  | (k, v) :: rest =>
      normalizePropsObj
        (setJS acc (camelize k)
          (if isPlainObject v then v else .obj [("type", v)] none)) rest

/-- normalizeProps (lines 334-370): no props field is a no-op; the
sequence and mapping forms are rewritten to the canonical object shape;
any other truthy shape warns and leaves the empty normalized mapping. -/
def normalizeProps (options : JSVal) : JSVal × List String :=
  let props := getProp options "props"
  if truthy props = false then (options, [])
  else
    let step :=
      match props with
      | .arr es => normalizePropsArr (.obj [] none) [] es.reverse
      | v =>
          if isPlainObject v then (normalizePropsObj (.obj [] none) (forInEntries v), [])
          else (.obj [] none, [invalidPropsMsg])
    (setJS options "props" step.1, step.2)

/-- The array-form walk of normalizeInject: normalized[element] =
(from: element). -/
def normalizeInjectArr (acc : JSVal) : List JSVal → JSVal
  | [] => acc
  | v :: rest =>
      normalizeInjectArr (setJS acc (jsToString v) (.obj [("from", v)] none)) rest

/-- The object-form walk of normalizeInject: a descriptor value is
extended over (from: key), any other value is wrapped as (from: val). -/
def normalizeInjectObj (acc : JSVal) : List (String × JSVal) → JSVal
  | [] => acc
  | (k, v) :: rest =>
      normalizeInjectObj
        (setJS acc k
          (if isPlainObject v then extendJS (.obj [("from", .str k)] none) v
           else .obj [("from", v)] none)) rest

/-- normalizeInject (lines 391-419): a falsy inject field is a no-op;
otherwise options.inject is replaced by a freshly created object before
the shape check, so an invalid shape warns and leaves the empty
object. -/
def normalizeInject (options : JSVal) : JSVal × List String :=
  let inject := getProp options "inject"
  if truthy inject = false then (options, [])
  else
    let step :=
      match inject with
      | .arr es => (normalizeInjectArr (.obj [] none) es, ([] : List String))
      | v =>
          if isPlainObject v then (normalizeInjectObj (.obj [] none) (forInEntries v), [])
          else (.obj [] none, [invalidInjectMsg])
    (setJS options "inject" step.1, step.2)

/-- normalizeDirectives (lines 425-438): each function-valued directive
entry becomes (bind: fn, update: fn); only reached when a directives
value is present. -/
def normalizeDirectivesLoop (dirs : JSVal) : List String → JSVal
  | [] => dirs
  | k :: rest =>
      let def0 := getProp dirs k
      normalizeDirectivesLoop
        (if isFunction def0 then
          setJS dirs k (.obj [("bind", def0), ("update", def0)] none)
         else dirs) rest

def normalizeDirectives (options : JSVal) : JSVal :=
  let dirs := getProp options "directives"
  if truthy dirs then
    setJS options "directives" (normalizeDirectivesLoop dirs (forInKeys dirs))
  else options

/-!
## The merge driver mergeOptions (lines 456-517)
-/

/-- One mergeField(key) call (lines 512-515): look the key up in the
strategy registry, fall back to the default strategy, and store the
strategy result on the output object. -/
def mergeField (parent child : JSVal) (vm : Option JSVal)
    (acc : JSVal) (k : String) : JSVal :=
  setJS acc k (stratFor k (getProp parent k) (getProp child k) vm k)

/-- The field-merging pass (lines 488-516): iterate every key of parent,
then every key of child that is not an own key of parent, building a new
object; the returned list is the sequence of keys processed, in order. -/
def mergeFields (parent child : JSVal) (vm : Option JSVal) :
    JSVal × List String :=
  let pks := forInKeys parent
  let cks := (forInKeys child).filter (fun k => hasOwnB parent k = false)
  ((pks ++ cks).foldl (mergeField parent child vm) (.obj [] none), pks ++ cks)

/-- The constructor substitution (lines 470-472): a function child is
replaced by its attached options object.  Component constructors
(Vue.extend) are outside this repository, so in the model a function
carries no options property and the substitution yields undefined. -/
def childSub (child : JSVal) : JSVal :=
  if isFunction child then getProp child "options" else child

lemma sizeOf_jsval_pos : ∀ v : JSVal, 1 ≤ sizeOf v := by
  intro v
  cases v <;> simp_arith

lemma alGet_sizeOf :
    ∀ (l : List (String × JSVal)) (k : String) (v : JSVal),
      alGet l k = some v → sizeOf v < sizeOf l := by
  intro l
  induction l with
  | nil => intro k v h; simp [alGet] at h
  | cons hd tl ih =>
      intro k v h
      obtain ⟨k1, v1⟩ := hd
      simp only [alGet] at h
      split at h
      · cases h
        simp_arith
      · have h2 := ih k v h
        simp_arith
        omega

/-- A non-index, non-length property read gives undefined or a strictly
smaller value. -/
lemma getProp_size_of_nonindex :
    ∀ (n : Nat) (v : JSVal) (k : String), sizeOf v ≤ n →
      strToNat? k = none → k ≠ "length" →
      getProp v k = .undefined ∨ sizeOf (getProp v k) < sizeOf v := by
  intro n
  induction n with
  | zero =>
      intro v k hle _ _
      have := sizeOf_jsval_pos v
      omega
  | succ n ih =>
      intro v k hle hk1 hk2
      cases v with
      | undefined => left; simp [getProp]
      | null => left; simp [getProp]
      | bool b => left; simp [getProp]
      | num m => left; simp [getProp]
      | fn f => left; simp [getProp]
      | str s => left; simp [getProp, hk1, hk2]
      | arr es => left; simp [getProp, hk1, hk2]
      | obj own proto =>
          cases proto with
          | none =>
              cases halg : alGet own k with
              | some x =>
                  right
                  have h1 := alGet_sizeOf own k x halg
                  have h2 : sizeOf own <
                      sizeOf (JSVal.obj own (none : Option JSVal)) := by
                    simp_arith
                  simp only [getProp, halg]
                  omega
              | none =>
                  left
                  simp only [getProp, halg]
          | some p =>
              cases halg : alGet own k with
              | some x =>
                  right
                  have h1 := alGet_sizeOf own k x halg
                  have h2 : sizeOf own < sizeOf (JSVal.obj own (some p)) := by
                    simp_arith
                  simp only [getProp, halg]
                  omega
              | none =>
                  have hps : sizeOf p ≤ n := by
                    simp_arith at hle
                    omega
                  rcases ih p k hps hk1 hk2 with h3 | h3
                  · left
                    simp only [getProp, halg]
                    exact h3
                  · right
                    have hlt : sizeOf p < sizeOf (JSVal.obj own (some p)) := by
                      simp_arith
                    simp only [getProp, halg]
                    omega

lemma getProp_size_of_nonindex' (v : JSVal) (k : String)
    (hk1 : strToNat? k = none) (hk2 : k ≠ "length") :
    getProp v k = .undefined ∨ sizeOf (getProp v k) < sizeOf v :=
  getProp_size_of_nonindex (sizeOf v) v k (le_refl _) hk1 hk2

lemma childSub_size (c : JSVal) : sizeOf (childSub c) ≤ sizeOf c := by
  cases c with
  | fn f =>
      simp only [childSub, isFunction, if_pos, getProp]
      simp_arith
  | undefined => simp [childSub, isFunction]
  | null => simp [childSub, isFunction]
  | bool b => simp [childSub, isFunction]
  | num m => simp [childSub, isFunction]
  | str s => simp [childSub, isFunction]
  | arr es => simp [childSub, isFunction]
  | obj own proto => simp [childSub, isFunction]

lemma arrElems_size (v : JSVal) : sizeOf (arrElems v) ≤ sizeOf v := by
  cases v with
  | arr es => simp only [arrElems]; simp_arith
  | undefined => simp only [arrElems]; simp_arith
  | null => simp only [arrElems]; simp_arith
  | bool b => simp only [arrElems]; simp_arith
  | num m => simp only [arrElems]; simp_arith
  | str s => simp only [arrElems]; simp_arith
  | obj own proto => simp only [arrElems]; simp_arith
  | fn f => simp only [arrElems]; simp_arith

lemma extends_recursion_size (child : JSVal)
    (h : truthy (getProp (childSub child) "extends") = true) :
    sizeOf (getProp (childSub child) "extends") < sizeOf child := by
  have h1 := getProp_size_of_nonindex' (childSub child) "extends"
    (by decide) (by decide)
  rcases h1 with h1 | h1
  · rw [h1] at h; simp [truthy] at h
  · have h2 := childSub_size child
    omega

lemma mixins_recursion_size (child : JSVal)
    (h : truthy (getProp (childSub child) "mixins") = true) :
    sizeOf (arrElems (getProp (childSub child) "mixins")) < sizeOf child := by
  have h1 := getProp_size_of_nonindex' (childSub child) "mixins"
    (by decide) (by decide)
  rcases h1 with h1 | h1
  · rw [h1] at h; simp [truthy] at h
  · have h2 := childSub_size child
    have h3 := arrElems_size (getProp (childSub child) "mixins")
    have h4 := sizeOf_jsval_pos (getProp (childSub child) "mixins")
    omega

mutual

/-- mergeOptions (lines 456-517): substitute a constructor child by its
options, normalize props, inject and directives on the child, fold the
extends source and then each mixin into the parent (each by a recursive
mergeOptions), and run the field-merging pass.  checkComponents only
emits dev warnings and does not affect the result value.  The
normalizers rewrite only the props, inject and directives fields, so
the extends and mixins fields are read off the pre-normalization
child.  Known deliberate divergences of this total model, on inputs no
theorem below quantifies over: the source THROWS a TypeError when
child is nullish (checkComponents and the normalizers read properties
of child) or when child is a function (its options object, built by
Vue.extend outside this repository, is not modelled), and a strategy
can throw on malformed field shapes (see stratNoThrow); the model
returns a value there instead. -/
def mergeOptions (parent child : JSVal) (vm : Option JSVal) : JSVal :=
  let child2 :=
    normalizeDirectives (normalizeInject (normalizeProps (childSub child)).1).1
  let parent1 :=
    if h1 : truthy (getProp (childSub child) "extends") = true then
      mergeOptions parent (getProp (childSub child) "extends") vm
    else parent
  let parent2 :=
    if h2 : truthy (getProp (childSub child) "mixins") = true then
      mergeMixins parent1 (arrElems (getProp (childSub child) "mixins")) vm
    else parent1
  (mergeFields parent2 child2 vm).1
termination_by 2 * sizeOf child
decreasing_by
  · have := extends_recursion_size child h1
    omega
  · have := mixins_recursion_size child h2
    omega

/-- The mixins loop (lines 483-487): fold each mixin into the parent
left to right. -/
def mergeMixins (parent : JSVal) (ms : List JSVal) (vm : Option JSVal) :
    JSVal :=
  match ms with
  | [] => parent
  | m :: rest => mergeMixins (mergeOptions parent m vm) rest vm
termination_by 2 * sizeOf ms + 1
decreasing_by
  all_goals simp_arith
  all_goals omega

end

/-!
## resolveAsset (lines 535-561)
-/

/-- The warning text for an unresolved asset: the category name loses
its plural s. -/
def failMsg (ty : String) (id : String) : String :=
  "Failed to resolve " ++ ty.dropRight 1 ++ ": " ++ id

/-- a || b. -/
def orJS (a b : JSVal) : JSVal :=
  if truthy a then a else b

/-- resolveAsset(options, type, id, warnMissing?): a non-string id
returns undefined; the three spellings (exact, camelized, Pascal-cased)
are first checked as own properties of options[type], then looked up
through the prototype chain with truthiness fallback; a missing asset
warns when requested.  hasOwn on a nullish registry throws a TypeError,
which the model surfaces as an error value. -/
def resolveAsset (options : JSVal) (ty : String) (id : JSVal)
    (warnMissing : Bool) : Except JSErr (JSVal × List String) :=
  match id with
  | .str s =>
      let assets := getProp options ty
      if isNullish assets then
        .error (.typeError "cannot convert a nullish asset registry to an object")
      else if hasOwnB assets s then .ok (getProp assets s, [])
      else
        let camelizedId := camelize s
        if hasOwnB assets camelizedId then .ok (getProp assets camelizedId, [])
        else
          let PascalCaseId := capitalize camelizedId
          if hasOwnB assets PascalCaseId then .ok (getProp assets PascalCaseId, [])
          else
            let res := orJS (getProp assets s)
              (orJS (getProp assets camelizedId) (getProp assets PascalCaseId))
            if warnMissing && (truthy res = false) then
              .ok (res, [failMsg ty s])
            else
              .ok (res, [])
  | _ => .ok (.undefined, [])

/-!
## Basic lemmas about the object model
-/

/-- Own-property lookup of an object value. -/
def ownLookup : JSVal → String → Option JSVal
  | .obj own _, k => alGet own k
  | _, _ => none

lemma alGet_alSet_self (l : List (String × JSVal)) (k : String) (v : JSVal) :
    alGet (alSet l k v) k = some v := by
  induction l with
  | nil => simp [alSet, alGet]
  | cons hd rest ih =>
      obtain ⟨k1, v1⟩ := hd
      by_cases h : k1 = k
      · subst h
        simp [alSet, alGet]
  
      · simp [alSet, alGet, h, Ne.symm h, ih]

lemma alGet_alSet_ne (l : List (String × JSVal)) (k k1 : String) (v : JSVal)
    (h : k ≠ k1) : alGet (alSet l k1 v) k = alGet l k := by
  induction l with
  | nil => simp [alSet, alGet, h]
  | cons hd rest ih =>
      obtain ⟨k2, v2⟩ := hd
      by_cases h2 : k2 = k1
      · subst h2
        simp [alSet, alGet, h]
      · simp only [alSet, if_neg h2, alGet]
        by_cases h3 : k = k2
        · simp [h3]
        · simp [h3, ih]

lemma alGet_eq_none_iff (l : List (String × JSVal)) (k : String) :
    alGet l k = none ↔ k ∉ l.map Prod.fst := by
  induction l with
  | nil => simp [alGet]
  | cons hd rest ih =>
      obtain ⟨k1, v1⟩ := hd
      by_cases h : k = k1
      · subst h
        simp [alGet]
      · simp [alGet, h, ih]

lemma alGet_mem (l : List (String × JSVal)) (k : String) (v : JSVal)
    (h : alGet l k = some v) : (k, v) ∈ l := by
  induction l with
  | nil => simp [alGet] at h
  | cons hd rest ih =>
      obtain ⟨k1, v1⟩ := hd
      by_cases h2 : k = k1
      · subst h2
        simp [alGet] at h
        simp [h]
      · simp [alGet, h2] at h
        simp [ih h]

lemma mem_alGet_of_nodup (l : List (String × JSVal)) (k : String) (v : JSVal)
    (hnd : (l.map Prod.fst).Nodup) (h : (k, v) ∈ l) : alGet l k = some v := by
  induction l with
  | nil => simp at h
  | cons hd rest ih =>
      obtain ⟨k1, v1⟩ := hd
      simp only [List.map_cons, List.nodup_cons] at hnd
      rcases List.mem_cons.mp h with heq | hmem
      · cases heq
        simp [alGet]
      · have hk : k ∈ List.map Prod.fst rest :=
          List.mem_map_of_mem Prod.fst hmem
        have hne : k ≠ k1 := by
          intro he
          subst he
          exact hnd.1 hk
        simp [alGet, hne, ih hnd.2 hmem]

lemma getProp_of_own (own : List (String × JSVal)) (p : Option JSVal)
    (k : String) (v : JSVal) (h : alGet own k = some v) :
    getProp (.obj own p) k = v := by
  cases p with
  | none => simp [getProp, h]
  | some q => simp [getProp, h]

lemma hasOwnB_obj (own : List (String × JSVal)) (p : Option JSVal)
    (k : String) : hasOwnB (.obj own p) k = (alGet own k).isSome := by
  simp [hasOwnB]

/-!
## Characterization of mergeDataEntries (for the data deep merge)
-/

/-- Walking an entry list keeps the object shape and the prototype. -/
lemma mergeDataEntries_shape :
    ∀ (entries : List (String × JSVal)) (own : List (String × JSVal))
      (p : Option JSVal),
      ∃ own2, (mergeDataEntries (.obj own p) entries).1 = .obj own2 p := by
  intro entries
  induction entries with
  | nil => intro own p; exact ⟨own, by simp [mergeDataEntries]⟩
  | cons hd rest ih =>
      intro own p
      obtain ⟨k1, v1⟩ := hd
      simp only [mergeDataEntries]
      by_cases h1 : hasOwnB (.obj own p) k1 = false
      · simp only [h1, if_true, setJS]
        exact ih (alSet own k1 v1) p
      · simp only [h1, if_false]
        by_cases h2 : (isPlainObject (getProp (.obj own p) k1)
            && isPlainObject v1) = true
        · simp only [h2, if_true, setJS]
          exact ih _ p
        · simp only [h2, if_false]
          exact ih own p

/-- Keys that do not occur in the walked entries keep their own-property
binding. -/
lemma mergeDataEntries_not_mem :
    ∀ (entries : List (String × JSVal)) (own : List (String × JSVal))
      (p : Option JSVal) (k : String),
      k ∉ entries.map Prod.fst →
      ownLookup (mergeDataEntries (.obj own p) entries).1 k = alGet own k := by
  intro entries
  induction entries with
  | nil => intro own p k _; simp [mergeDataEntries, ownLookup]
  | cons hd rest ih =>
      intro own p k hk
      obtain ⟨k1, v1⟩ := hd
      simp only [List.map_cons, List.mem_cons, not_or] at hk
      obtain ⟨hk1, hkrest⟩ := hk
      simp only [mergeDataEntries]
      by_cases h1 : hasOwnB (.obj own p) k1 = false
      · rw [if_pos h1]
        dsimp only [setJS]
        rw [ih _ p k hkrest, alGet_alSet_ne _ _ _ _ hk1]
      · rw [if_neg h1]
        by_cases h2 : (isPlainObject (getProp (.obj own p) k1)
            && isPlainObject v1) = true
        · rw [if_pos h2]
          dsimp only [setJS]
          rw [ih _ p k hkrest, alGet_alSet_ne _ _ _ _ hk1]
        · rw [if_neg h2]
          exact ih own p k hkrest

/-- Full characterization of one mergeData walk over an object source:
a source key absent from the destination is introduced (through the
reactive setter, hence logged) with the source value; a shared key with
two plain-object sides is replaced by the recursive merge; any other
shared key keeps the destination value. -/
lemma mergeDataEntries_char :
    ∀ (entries : List (String × JSVal)) (own : List (String × JSVal))
      (p : Option JSVal) (k : String) (v : JSVal),
      (entries.map Prod.fst).Nodup → (k, v) ∈ entries →
      ((alGet own k = none →
          ownLookup (mergeDataEntries (.obj own p) entries).1 k = some v ∧
          (k, v) ∈ (mergeDataEntries (.obj own p) entries).2)
       ∧ (∀ tv, alGet own k = some tv →
            (isPlainObject tv && isPlainObject v) = true →
            ownLookup (mergeDataEntries (.obj own p) entries).1 k =
              some (mergeData tv v).1)
       ∧ (∀ tv, alGet own k = some tv →
            (isPlainObject tv && isPlainObject v) = false →
            ownLookup (mergeDataEntries (.obj own p) entries).1 k = some tv)) := by
  intro entries
  induction entries with
  | nil => intro own p k v _ hmem; simp at hmem
  | cons hd rest ih =>
      intro own p k v hnd hmem
      obtain ⟨k1, v1⟩ := hd
      simp only [List.map_cons, List.nodup_cons] at hnd
      rcases List.mem_cons.mp hmem with heq | hmem2
      · injection heq with hk hv
        subst hk
        subst hv
        simp only [mergeDataEntries]
        refine ⟨?_, ?_, ?_⟩
        · intro hnone
          have hw : hasOwnB (.obj own p) k = false := by
            simp [hasOwnB, hnone]
          rw [if_pos hw]
          dsimp only [setJS]
          constructor
          · rw [mergeDataEntries_not_mem rest _ p k hnd.1]
            exact alGet_alSet_self own k v
          · exact List.mem_cons_self _ _
        · intro tv htv hplain
          have hw : ¬ (hasOwnB (.obj own p) k = false) := by
            simp [hasOwnB, htv]
          rw [if_neg hw]
          have hget : getProp (.obj own p) k = tv := getProp_of_own own p k tv htv
          have hcond : (isPlainObject (getProp (.obj own p) k)
              && isPlainObject v) = true := by rw [hget]; exact hplain
          rw [if_pos hcond]
          dsimp only [setJS]
          rw [mergeDataEntries_not_mem rest _ p k hnd.1, hget]
          exact alGet_alSet_self own k _
        · intro tv htv hplainF
          have hw : ¬ (hasOwnB (.obj own p) k = false) := by
            simp [hasOwnB, htv]
          rw [if_neg hw]
          have hget : getProp (.obj own p) k = tv := getProp_of_own own p k tv htv
          have hcond : ¬ ((isPlainObject (getProp (.obj own p) k)
              && isPlainObject v) = true) := by
            rw [hget]
            simp [hplainF]
          rw [if_neg hcond]
          rw [mergeDataEntries_not_mem rest own p k hnd.1]
          exact htv
      · have hkne : k ≠ k1 := by
          intro he
          subst he
          exact hnd.1 (List.mem_map_of_mem Prod.fst hmem2)
        simp only [mergeDataEntries]
        by_cases h1 : hasOwnB (.obj own p) k1 = false
        · rw [if_pos h1]
          dsimp only [setJS]
          have hpres := alGet_alSet_ne own k k1 v1 hkne
          have IH := ih (alSet own k1 v1) p k v hnd.2 hmem2
          rw [hpres] at IH
          refine ⟨?_, IH.2.1, IH.2.2⟩
          intro hnone
          obtain ⟨ha, hb⟩ := IH.1 hnone
          exact ⟨ha, List.mem_cons_of_mem _ hb⟩
        · rw [if_neg h1]
          by_cases h2 : (isPlainObject (getProp (.obj own p) k1)
              && isPlainObject v1) = true
          · rw [if_pos h2]
            dsimp only [setJS]
            have hpres := alGet_alSet_ne own k k1
              ((mergeData (getProp (.obj own p) k1) v1).1) hkne
            have IH := ih (alSet own k1 ((mergeData (getProp (.obj own p) k1) v1).1))
              p k v hnd.2 hmem2
            rw [hpres] at IH
            refine ⟨?_, IH.2.1, IH.2.2⟩
            intro hnone
            obtain ⟨ha, hb⟩ := IH.1 hnone
            exact ⟨ha, List.mem_append_right _ hb⟩
          · rw [if_neg h2]
            exact ih own p k v hnd.2 hmem2

/-!
## Claim theorems
-/

/-- C4: the deep data-merge introduces every source key missing from the
destination through the external reactive setter with the source value,
recurses when a shared key holds plain objects on both sides, and keeps
the destination value unchanged for every other shared key; the
characterization is stated for arbitrary destination and source objects,
hence holds at every recursion depth. -/
theorem mergeData_deep_merge_spec
    (tOwn fOwn : List (String × JSVal)) (tp fp : Option JSVal)
    (hnd : (fOwn.map Prod.fst).Nodup) :
    ∀ k v, (k, v) ∈ fOwn →
      ((alGet tOwn k = none →
          ownLookup (mergeData (.obj tOwn tp) (.obj fOwn fp)).1 k = some v ∧
          (k, v) ∈ (mergeData (.obj tOwn tp) (.obj fOwn fp)).2)
       ∧ (∀ tv, alGet tOwn k = some tv →
            (isPlainObject tv && isPlainObject v) = true →
            ownLookup (mergeData (.obj tOwn tp) (.obj fOwn fp)).1 k =
              some (mergeData tv v).1)
       ∧ (∀ tv, alGet tOwn k = some tv →
            (isPlainObject tv && isPlainObject v) = false →
            ownLookup (mergeData (.obj tOwn tp) (.obj fOwn fp)).1 k = some tv)) := by
  intro k v hmem
  have h := mergeDataEntries_char fOwn tOwn tp k v hnd hmem
  simpa [mergeData] using h

theorem mergeData_deep_merge_spec_witness :
    ((([("b", JSVal.num 2)] : List (String × JSVal)).map Prod.fst).Nodup) ∧
    (("b", JSVal.num 2) ∈ ([("b", JSVal.num 2)] : List (String × JSVal))) ∧
    (alGet [("a", JSVal.num 1)] "b" = none) ∧
    (ownLookup (mergeData (.obj [("a", JSVal.num 1)] none)
        (.obj [("b", JSVal.num 2)] none)).1 "b" = some (JSVal.num 2) ∧
      ("b", JSVal.num 2) ∈ (mergeData (.obj [("a", JSVal.num 1)] none)
        (.obj [("b", JSVal.num 2)] none)).2) :=
  ⟨by simp, by simp,
   by simp [alGet],
   (mergeData_deep_merge_spec [("a", JSVal.num 1)] [("b", JSVal.num 2)]
      none none (by simp) "b" (JSVal.num 2) (by simp)).1 (by simp [alGet])⟩

/-- C3 (amended): when both data values are present the merged value is
a producer function (in both the instance-context and the static form);
invoking it evaluates both sides (calling each side if it is a
function) and deep-merges the child result over the parent result via
mergeData, so child leaf values win on collisions and unique parent
keys are preserved.  When the child produced nothing the two forms
differ: the instance-context producer returns the parent (default)
result, while the static producer still runs mergeData on the child
result, throwing a TypeError when the child result is nullish and the
parent result has enumerable keys and returning the child result
unchanged when the parent result has none. -/
theorem merged_data_producer_spec
    (cOwn pOwn : List (String × JSVal)) (vmv thisv : JSVal)
    (hnd : (pOwn.map Prod.fst).Nodup) :
    (stratData (.fn (.const (.obj pOwn none))) (.fn (.const (.obj cOwn none)))
        (some vmv) =
      .fn (.mergedInstanceDataFn (.fn (.const (.obj cOwn none)))
        (.fn (.const (.obj pOwn none))) vmv))
    ∧ (callFn (.mergedInstanceDataFn (.fn (.const (.obj cOwn none)))
          (.fn (.const (.obj pOwn none))) vmv) vmv =
        .ok (mergeData (.obj cOwn none) (.obj pOwn none)).1)
    ∧ (callFn (.mergedInstanceDataFn (.fn (.const .null))
          (.fn (.const (.obj pOwn none))) vmv) vmv = .ok (.obj pOwn none))
    ∧ (stratData (.fn (.const (.obj pOwn none))) (.fn (.const (.obj cOwn none)))
        none =
      .fn (.mergedDataFn (.fn (.const (.obj cOwn none)))
        (.fn (.const (.obj pOwn none)))))
    ∧ (callFn (.mergedDataFn (.fn (.const (.obj cOwn none)))
          (.fn (.const (.obj pOwn none)))) thisv =
        .ok (mergeData (.obj cOwn none) (.obj pOwn none)).1)
    ∧ (pOwn ≠ [] →
        callFn (.mergedDataFn (.fn (.const .null))
          (.fn (.const (.obj pOwn none)))) thisv =
        .error (.typeError "cannot read properties of a nullish data object"))
    ∧ (callFn (.mergedDataFn (.fn (.const .null))
          (.fn (.const (.obj ([] : List (String × JSVal)) none)))) thisv =
        .ok .null)
    ∧ (∀ k v, (k, v) ∈ pOwn → alGet cOwn k = none →
        ownLookup (mergeData (.obj cOwn none) (.obj pOwn none)).1 k = some v)
    ∧ (∀ k cv1, alGet cOwn k = some cv1 → isPlainObject cv1 = false →
        ownLookup (mergeData (.obj cOwn none) (.obj pOwn none)).1 k =
          some cv1) := by
  refine ⟨?_, ?_, ?_, ?_, ?_, ?_, ?_, ?_, ?_⟩
  · simp [stratData, mergeDataOrFn]
  · simp [callFn, evalSide, truthy]
  · simp [callFn, evalSide, truthy]
  · simp [stratData, mergeDataOrFn, truthy, isFunction]
  · simp [callFn, evalSide, isNullish]
  · intro hp
    have hkeys : pOwn.map Prod.fst ≠ [] := by
      simpa using hp
    simp [callFn, evalSide, isNullish, objRawKeys, hkeys]
  · simp [callFn, evalSide, isNullish, objRawKeys, mergeData,
      mergeDataEntries]
  · intro k v hmem hnone
    have h := (mergeDataEntries_char pOwn cOwn none k v hnd hmem).1 hnone
    simpa [mergeData] using h.1
  · intro k cv1 hsome hplain
    by_cases hmemp : k ∈ pOwn.map Prod.fst
    · obtain ⟨x, hx, hfst⟩ := List.mem_map.mp hmemp
      obtain ⟨k2, v2⟩ := x
      simp only at hfst
      subst hfst
      have h := (mergeDataEntries_char pOwn cOwn none k2 v2 hnd hx).2.2
        cv1 hsome (by simp [hplain])
      simpa [mergeData] using h
    · have h := mergeDataEntries_not_mem pOwn cOwn none k hmemp
      simpa [mergeData, h] using hsome

theorem merged_data_producer_spec_witness :
    ((([("a", JSVal.num 1)] : List (String × JSVal)).map Prod.fst).Nodup) ∧
    (callFn (.mergedInstanceDataFn (.fn (.const (.obj [("b", JSVal.num 2)] none)))
        (.fn (.const (.obj [("a", JSVal.num 1)] none))) (.obj [] none))
      (.obj [] none) =
      .ok (mergeData (.obj [("b", JSVal.num 2)] none)
        (.obj [("a", JSVal.num 1)] none)).1) ∧
    (([("a", JSVal.num 1)] : List (String × JSVal)) ≠ []) ∧
    (callFn (.mergedDataFn (.fn (.const .null))
        (.fn (.const (.obj [("a", JSVal.num 1)] none)))) (.obj [] none) =
      .error (.typeError "cannot read properties of a nullish data object")) :=
  ⟨by simp,
   (merged_data_producer_spec [("b", JSVal.num 2)] [("a", JSVal.num 1)]
      (.obj [] none) (.obj [] none) (by simp)).2.1,
   by simp,
   (merged_data_producer_spec [("b", JSVal.num 2)] [("a", JSVal.num 1)]
      (.obj [] none) (.obj [] none) (by simp)).2.2.2.2.2.1 (by simp)⟩

/-- C3 counterexample to the claim as stated: with a child producer that
produces nothing (null), the merged instance producer returns the parent
result, not the child result. -/
theorem merged_data_producer_empty_child_returns_parent :
    callFn (.mergedInstanceDataFn (.fn (.const .null))
        (.fn (.const (.obj [("a", JSVal.num 1)] none))) (.obj [] none))
      (.obj [] none) = .ok (.obj [("a", JSVal.num 1)] none) ∧
    (JSVal.obj [("a", JSVal.num 1)] none) ≠ .null := by
  refine ⟨by simp [callFn, evalSide, truthy], by simp⟩

/-- C5 (amended): the provide strategy is mergeDataOrFn itself; it
agrees with the data strategy whenever an instance context is present,
or the child value is absent, or the child value is a function. -/
theorem provide_strat_agrees_with_data_strat
    (p c : JSVal) (vm : Option JSVal)
    (h : vm ≠ none ∨ truthy c = false ∨ isFunction c = true) :
    mergeDataOrFn p c vm = stratData p c vm := by
  cases vm with
  | some v => simp [stratData]
  | none =>
      rcases h with h | h | h
      · simp at h
      · simp [stratData, h]
      · simp [stratData, h]

theorem provide_strat_agrees_with_data_strat_witness :
    ((some (JSVal.obj [] none) : Option JSVal) ≠ none ∨
      truthy (.fn (.const .null)) = false ∨
      isFunction (JSVal.fn (.const .null)) = true) ∧
    mergeDataOrFn (.num 1) (.fn (.const .null)) (some (.obj [] none)) =
      stratData (.num 1) (.fn (.const .null)) (some (.obj [] none)) :=
  ⟨Or.inl (by simp),
   provide_strat_agrees_with_data_strat (.num 1) (.fn (.const .null))
     (some (.obj [] none)) (Or.inl (by simp))⟩

/-- C5 counterexample to the claim as stated: with no instance context
and a truthy non-function child value, the data strategy discards the
child and returns the parent, while the provide strategy (mergeDataOrFn)
builds a merged producer. -/
theorem provide_strat_differs_on_plain_child :
    mergeDataOrFn (.num 1) (.obj [] none) none =
      .fn (.mergedDataFn (.obj [] none) (.num 1)) ∧
    stratData (.num 1) (.obj [] none) none = .num 1 ∧
    JSVal.fn (.mergedDataFn (.obj [] none) (.num 1)) ≠ .num 1 := by
  refine ⟨by simp [mergeDataOrFn, truthy],
    by simp [stratData, truthy, isFunction], by simp⟩

/-- C1 (amended): resolveAsset resolves the three spellings in the
order: exact as own property, camelized as own property, Pascal-cased
as own property, and only then falls back to the prototype chain, where
the first truthy value among exact, camelized, Pascal-cased (in that
order) is returned.  Each clause below holds with no assumption on the
later spellings, which pins the order: an own exact entry beats
everything, an own camel entry beats an own Pascal entry and any
inherited entry (including an inherited exact one), an own Pascal entry
beats the fallback, and in the fallback an inherited truthy exact entry
beats the camel entry, which beats the Pascal entry. -/
theorem resolveAsset_own_before_prototype
    (ty s : String) (aOwn : List (String × JSVal)) (ap : Option JSVal)
    (wm : Bool) :
    (∀ v, alGet aOwn s = some v →
      resolveAsset (.obj [(ty, .obj aOwn ap)] none) ty (.str s) wm =
        .ok (v, []))
    ∧ (∀ v, alGet aOwn s = none → alGet aOwn (camelize s) = some v →
      resolveAsset (.obj [(ty, .obj aOwn ap)] none) ty (.str s) wm =
        .ok (v, []))
    ∧ (∀ v, alGet aOwn s = none → alGet aOwn (camelize s) = none →
        alGet aOwn (capitalize (camelize s)) = some v →
        resolveAsset (.obj [(ty, .obj aOwn ap)] none) ty (.str s) wm =
          .ok (v, []))
    ∧ (alGet aOwn s = none → alGet aOwn (camelize s) = none →
        alGet aOwn (capitalize (camelize s)) = none →
        truthy (getProp (.obj aOwn ap) s) = true →
        resolveAsset (.obj [(ty, .obj aOwn ap)] none) ty (.str s) wm =
          .ok (getProp (.obj aOwn ap) s, []))
    ∧ (alGet aOwn s = none → alGet aOwn (camelize s) = none →
        alGet aOwn (capitalize (camelize s)) = none →
        truthy (getProp (.obj aOwn ap) s) = false →
        truthy (getProp (.obj aOwn ap) (camelize s)) = true →
        resolveAsset (.obj [(ty, .obj aOwn ap)] none) ty (.str s) wm =
          .ok (getProp (.obj aOwn ap) (camelize s), []))
    ∧ (alGet aOwn s = none → alGet aOwn (camelize s) = none →
        alGet aOwn (capitalize (camelize s)) = none →
        truthy (getProp (.obj aOwn ap) s) = false →
        truthy (getProp (.obj aOwn ap) (camelize s)) = false →
        resolveAsset (.obj [(ty, .obj aOwn ap)] none) ty (.str s) false =
          .ok (getProp (.obj aOwn ap) (capitalize (camelize s)), [])) := by
  have hassets : getProp (.obj [(ty, JSVal.obj aOwn ap)] none) ty =
      .obj aOwn ap := by
    apply getProp_of_own
    simp [alGet]
  refine ⟨?_, ?_, ?_, ?_, ?_, ?_⟩
  · intro v h1
    simp [resolveAsset, hassets, isNullish, hasOwnB, h1,
      getProp_of_own aOwn ap s v h1]
  · intro v h1 h2
    simp [resolveAsset, hassets, isNullish, hasOwnB, h1, h2,
      getProp_of_own aOwn ap (camelize s) v h2]
  · intro v h1 h2 h3
    simp [resolveAsset, hassets, isNullish, hasOwnB, h1, h2, h3,
      getProp_of_own aOwn ap (capitalize (camelize s)) v h3]
  · intro h1 h2 h3 htr
    simp [resolveAsset, hassets, isNullish, hasOwnB, h1, h2, h3, orJS, htr]
  · intro h1 h2 h3 htr1 htr2
    simp [resolveAsset, hassets, isNullish, hasOwnB, h1, h2, h3, orJS,
      htr1, htr2]
  · intro h1 h2 h3 htr1 htr2
    simp [resolveAsset, hassets, isNullish, hasOwnB, h1, h2, h3, orJS,
      htr1, htr2]

theorem resolveAsset_own_before_prototype_witness :
    (alGet [("foo-bar", JSVal.num 5), ("fooBar", JSVal.num 7)] "foo-bar" =
      some (JSVal.num 5)) ∧
    (resolveAsset (.obj [("components",
        .obj [("foo-bar", JSVal.num 5), ("fooBar", JSVal.num 7)] none)]
        none) "components" (.str "foo-bar") false = .ok (.num 5, [])) ∧
    (alGet [("fooBar", JSVal.num 7)] "foo-bar" = none) ∧
    (alGet [("fooBar", JSVal.num 7)] (camelize "foo-bar") =
      some (JSVal.num 7)) ∧
    resolveAsset (.obj [("components", .obj [("fooBar", JSVal.num 7)] none)]
        none) "components" (.str "foo-bar") false = .ok (.num 7, []) :=
  ⟨by rfl,
   (resolveAsset_own_before_prototype "components" "foo-bar"
      [("foo-bar", JSVal.num 5), ("fooBar", JSVal.num 7)] none false).1
     (JSVal.num 5) (by rfl),
   by rfl, by rfl,
   (resolveAsset_own_before_prototype "components" "foo-bar"
      [("fooBar", JSVal.num 7)] none false).2.1 (JSVal.num 7)
     (by rfl) (by rfl)⟩

/-- C1 counterexample to the claim as stated: the registry inherits the
exact spelling from its ancestor while owning the camel-cased spelling;
resolveAsset returns the own camel-case asset, not the inherited
exact-name asset. -/
theorem resolveAsset_inherited_exact_not_first :
    getProp (.obj [("fooBar", .str "ownCamel")]
        (some (.obj [("foo-bar", .str "protoExact")] none))) "foo-bar" =
      .str "protoExact" ∧
    resolveAsset (.obj [("components",
        .obj [("fooBar", .str "ownCamel")]
          (some (.obj [("foo-bar", .str "protoExact")] none)))] none)
      "components" (.str "foo-bar") false = .ok (.str "ownCamel", []) ∧
    (JSVal.str "ownCamel") ≠ .str "protoExact" := by
  refine ⟨by rfl, by rfl, by simp⟩

/-- The field-merging fold always builds a prototype-less object. -/
lemma foldl_mergeField_shape (p c : JSVal) (vm : Option JSVal) :
    ∀ (ks : List String) (es : List (String × JSVal)),
      ∃ es2, ks.foldl (mergeField p c vm) (.obj es none) = .obj es2 none := by
  intro ks
  induction ks with
  | nil => intro es; exact ⟨es, rfl⟩
  | cons k rest ih =>
      intro es
      simp only [List.foldl_cons]
      exact ih (alSet es k (stratFor k (getProp p k) (getProp c k) vm k))

/-- C7 (amended): a failure thrown by a caller-supplied data/provide
producer propagates to the caller unmodified (in both merged-producer
forms); resolveAsset completes with an ok result whenever the
configuration holds a non-nullish registry for the category, and an
unresolved lookup on such a registry is reported through the warning
sink (with the category singularized), not thrown -- but when the
registry itself is missing, resolveAsset throws a TypeError instead of
warning (see the counterexample).  The claim's blanket statement that
mergeOptions and the normalizers never throw does not hold on malformed
inputs (a nullish or constructor child, or field values outside
stratNoThrow) and is not asserted here. -/
theorem core_error_handling_spec :
    (∀ (options : JSVal) (ty : String) (id : JSVal) (wm : Bool),
       isNullish (getProp options ty) = false →
       ∃ r, resolveAsset options ty id wm = .ok r)
    ∧ (∀ (m : String) (pv vmv : JSVal),
        callFn (.mergedInstanceDataFn (.fn (.throwing m)) pv vmv) vmv =
          .error (.userError m))
    ∧ (∀ (m : String) (pv thisv : JSVal),
        callFn (.mergedDataFn (.fn (.throwing m)) pv) thisv =
          .error (.userError m))
    ∧ (∀ (ty s : String) (aOwn : List (String × JSVal)),
        alGet aOwn s = none → alGet aOwn (camelize s) = none →
        alGet aOwn (capitalize (camelize s)) = none →
        resolveAsset (.obj [(ty, .obj aOwn none)] none) ty (.str s) true =
          .ok (.undefined, [failMsg ty s])) := by
  refine ⟨?_, ?_, ?_, ?_⟩
  · intro options ty id wm h
    cases id with
    | str s =>
        simp only [resolveAsset]
        rw [if_neg (by simp [h])]
        split
        · exact ⟨_, rfl⟩
        · split
          · exact ⟨_, rfl⟩
          · split
            · exact ⟨_, rfl⟩
            · split
              · exact ⟨_, rfl⟩
              · exact ⟨_, rfl⟩
    | undefined => exact ⟨_, rfl⟩
    | null => exact ⟨_, rfl⟩
    | bool b => exact ⟨_, rfl⟩
    | num n => exact ⟨_, rfl⟩
    | arr es => exact ⟨_, rfl⟩
    | obj own pr => exact ⟨_, rfl⟩
    | fn f => exact ⟨_, rfl⟩
  · intro m pv vmv
    simp [callFn, evalSide]
  · intro m pv thisv
    simp [callFn, evalSide]
  · intro ty s aOwn h1 h2 h3
    have hassets : getProp (.obj [(ty, JSVal.obj aOwn none)] none) ty =
        .obj aOwn none := by
      apply getProp_of_own
      simp [alGet]
    simp [resolveAsset, hassets, isNullish, hasOwnB, h1, h2, h3, orJS,
      getProp, truthy]

theorem core_error_handling_spec_witness :
    isNullish (getProp (.obj [("components", JSVal.obj [] none)] none)
      "components") = false ∧
    (∃ r, resolveAsset (.obj [("components", JSVal.obj [] none)] none)
      "components" (.str "x") true = .ok r) ∧
    (resolveAsset (.obj [("components", JSVal.obj [] none)] none)
      "components" (.str "x") true =
      .ok (.undefined, [failMsg "components" "x"])) :=
  ⟨by rfl,
   core_error_handling_spec.1 (.obj [("components", JSVal.obj [] none)] none)
     "components" (.str "x") true (by rfl),
   core_error_handling_spec.2.2.2 "components" "x" [] (by rfl) (by rfl)
     (by rfl)⟩

/-- C7 counterexample to the claim as stated: resolveAsset on a merged
configuration with no registry for the requested category throws a
TypeError instead of reporting through the warning sink. -/
theorem resolveAsset_throws_on_missing_registry :
    resolveAsset (.obj [] none) "components" (.str "x") true =
      .error (.typeError
        "cannot convert a nullish asset registry to an object") := by
  rfl

/-- C6: every registered lifecycle hook field merges through mergeHook:
parent hooks precede child hooks in the merged sequence, a lone child
function is appended as a one-element sequence, and an absent child
returns the parent sequence unchanged. -/
theorem mergeHook_parent_before_child
    (h : String) (a b pv : JSVal) (f : Fn)
    (hmem : h ∈ lifecycleHooks) :
    (stratFor h = fun p c _ _ => mergeHook p c)
    ∧ (getProp (mergeOptions (.obj [(h, .arr [a])] none)
          (.obj [(h, .arr [b])] none) none) h = .arr [a, b])
    ∧ (mergeHook (.arr [a]) (.fn f) = .arr [a, .fn f])
    ∧ (mergeHook .undefined (.fn f) = .arr [.fn f])
    ∧ (mergeHook pv .undefined = pv) := by
  simp only [lifecycleHooks, List.mem_cons, List.not_mem_nil, or_false] at hmem
  rcases hmem with rfl | rfl | rfl | rfl | rfl | rfl | rfl | rfl | rfl | rfl | rfl
  all_goals
    refine ⟨by rfl, ?_,
      by simp [mergeHook, truthy, concatJS, isArr],
      by simp [mergeHook, truthy, isArr],
      by simp [mergeHook, truthy]⟩
  all_goals
    simp [mergeOptions, mergeMixins, mergeFields, mergeField, childSub,
      normalizeProps, normalizeInject, normalizeDirectives, getProp, alGet,
      isFunction, truthy, forInKeys, enumChainKeys, dedupFirst, hasOwnB,
      stratFor, stratsLookup, lifecycleHooks, assetFields, mergeHook, concatJS,
      isArr, setJS, alSet, strToNat?, strToNatCore, isUndefined]

theorem mergeHook_parent_before_child_witness :
    ("created" ∈ lifecycleHooks) ∧
    (getProp (mergeOptions (.obj [("created", .arr [.fn (.ctor "a")])] none)
        (.obj [("created", .arr [.fn (.ctor "b")])] none) none) "created" =
      .arr [.fn (.ctor "a"), .fn (.ctor "b")]) :=
  ⟨by simp [lifecycleHooks],
   (mergeHook_parent_before_child "created" (.fn (.ctor "a")) (.fn (.ctor "b"))
      .undefined (.ctor "c") (by simp [lifecycleHooks])).2.1⟩

/-- C9: the props normalizer is a no-op when props is absent (falsy);
the sequence form camelizes string elements and maps them to
(type: null), warning about and skipping non-string elements; the
mapping form camelizes keys and keeps descriptor-object values as they
are. -/
theorem normalizeProps_spec :
    (∀ options : JSVal, truthy (getProp options "props") = false →
      normalizeProps options = (options, []))
    ∧ (normalizeProps (.obj [("props", .arr [.str "a-b"])] none) =
        (.obj [("props", .obj [("aB", .obj [("type", .null)] none)] none)]
          none, []))
    ∧ (normalizeProps (.obj [("props",
          .obj [("c", .obj [("type", .fn (.ctor "String"))] none)] none)]
          none) =
        (.obj [("props",
          .obj [("c", .obj [("type", .fn (.ctor "String"))] none)] none)]
          none, []))
    ∧ (∀ v : JSVal, isStr v = false →
        normalizeProps (.obj [("props", .arr [v])] none) =
          (.obj [("props", .obj [] none)] none, [propsArrayMsg])) := by
  refine ⟨?_, by rfl, by rfl, ?_⟩
  · intro options h
    simp [normalizeProps, h]
  · intro v hv
    cases v with
    | str s => simp [isStr] at hv
    | undefined => rfl
    | null => rfl
    | bool b => rfl
    | num n => rfl
    | arr es => rfl
    | obj own p => rfl
    | fn f => rfl

theorem normalizeProps_spec_witness :
    isStr (JSVal.num 3) = false ∧
    normalizeProps (.obj [("props", .arr [JSVal.num 3])] none) =
      (.obj [("props", .obj [] none)] none, [propsArrayMsg]) :=
  ⟨by rfl, normalizeProps_spec.2.2.2 (JSVal.num 3) (by rfl)⟩

lemma normalizeInjectArr_shape :
    ∀ (es : List JSVal) (l : List (String × JSVal)),
      ∃ l2, normalizeInjectArr (.obj l none) es = .obj l2 none := by
  intro es
  induction es with
  | nil => intro l; exact ⟨l, rfl⟩
  | cons v rest ih =>
      intro l
      simp only [normalizeInjectArr, setJS]
      exact ih _

lemma normalizeInjectObj_shape :
    ∀ (entries : List (String × JSVal)) (l : List (String × JSVal)),
      ∃ l2, normalizeInjectObj (.obj l none) entries = .obj l2 none := by
  intro entries
  induction entries with
  | nil => intro l; exact ⟨l, rfl⟩
  | cons kv rest ih =>
      intro l
      obtain ⟨k, v⟩ := kv
      simp only [normalizeInjectObj, setJS]
      exact ih _

/-- C10: after the inject normalizer runs on a truthy inject field, the
field is always a plain (prototype-less) object; in particular an
invalid shape (neither sequence nor mapping) leaves the empty object. -/
theorem normalizeInject_always_object (injv : JSVal)
    (htr : truthy injv = true) :
    ∃ entries, (normalizeInject (.obj [("inject", injv)] none)).1 =
      .obj [("inject", .obj entries none)] none ∧
      ((isArr injv || isPlainObject injv) = false → entries = []) := by
  have hg : getProp (.obj [("inject", injv)] none) "inject" = injv :=
    getProp_of_own _ _ _ _ (by simp [alGet])
  cases injv with
  | undefined => simp [truthy] at htr
  | null => simp [truthy] at htr
  | arr es =>
      obtain ⟨l2, hl2⟩ := normalizeInjectArr_shape es []
      refine ⟨l2, ?_, ?_⟩
      · simp [normalizeInject, hg, truthy, hl2, setJS, alSet]
      · intro habs
        simp [isArr] at habs
  | obj own p =>
      obtain ⟨l2, hl2⟩ := normalizeInjectObj_shape (forInEntries (.obj own p)) []
      refine ⟨l2, ?_, ?_⟩
      · simp [normalizeInject, hg, truthy, isPlainObject, hl2, setJS, alSet]
      · intro habs
        simp [isPlainObject] at habs
  | bool b =>
      refine ⟨[], ?_, fun _ => rfl⟩
      have hb : b = true := by simpa [truthy] using htr
      subst hb
      rfl
  | num n =>
      refine ⟨[], ?_, fun _ => rfl⟩
      simp [normalizeInject, hg, htr, isPlainObject, isArr, setJS, alSet]
  | str s =>
      refine ⟨[], ?_, fun _ => rfl⟩
      simp [normalizeInject, hg, htr, isPlainObject, isArr, setJS, alSet]
  | fn f =>
      refine ⟨[], ?_, fun _ => rfl⟩
      rfl

theorem normalizeInject_always_object_witness :
    truthy (JSVal.num 1) = true ∧
    ∃ entries, (normalizeInject (.obj [("inject", JSVal.num 1)] none)).1 =
      .obj [("inject", .obj entries none)] none ∧
      ((isArr (JSVal.num 1) || isPlainObject (JSVal.num 1)) = false →
        entries = []) :=
  ⟨by rfl, normalizeInject_always_object (.num 1) (by rfl)⟩

/-- C2: with child.extends = E and child.mixins = [M1, M2], the
ancestor chain is applied in the order P, E, M1, M2, C; for a field
handled by the default strategy the merged value is the last defined
value along that chain (child first, then M2, M1, E, P). -/
theorem mergeOptions_extends_mixins_order
    (k : String) (pv ev m1v m2v cv : JSVal)
    (hks : stratsLookup k = none) (hke : k ≠ "extends") (hkm : k ≠ "mixins") :
    getProp (mergeOptions (.obj [(k, pv)] none)
      (.obj [(k, cv), ("extends", .obj [(k, ev)] none),
             ("mixins", .arr [.obj [(k, m1v)] none, .obj [(k, m2v)] none])]
        none) none) k
    = (if isUndefined cv then
         if isUndefined m2v then
           if isUndefined m1v then
             if isUndefined ev then pv else ev
           else m1v
         else m2v
       else cv) := by
  have hkp : k ≠ "props" := by
    intro he; subst he
    simp [stratsLookup, lifecycleHooks, assetFields] at hks
  have hki : k ≠ "inject" := by
    intro he; subst he
    simp [stratsLookup, lifecycleHooks, assetFields] at hks
  have hkd : k ≠ "directives" := by
    intro he; subst he
    simp [stratsLookup, lifecycleHooks, assetFields] at hks
  have hke' := Ne.symm hke
  have hkm' := Ne.symm hkm
  have hkp' := Ne.symm hkp
  have hki' := Ne.symm hki
  have hkd' := Ne.symm hkd
  have hse : stratsLookup "extends" = none := by
    simp [stratsLookup, lifecycleHooks, assetFields]
  have hsm : stratsLookup "mixins" = none := by
    simp [stratsLookup, lifecycleHooks, assetFields]
  simp [mergeOptions, mergeMixins, mergeFields, mergeField, childSub,
    normalizeProps, normalizeInject, normalizeDirectives, getProp, alGet,
    isFunction, truthy, forInKeys, enumChainKeys, dedupFirst, hasOwnB,
    stratFor, hks, hse, hsm, arrElems, setJS, alSet,
    isUndefined, defaultStrat, hke, hkm, hkp, hki, hkd, hke', hkm', hkp', hki', hkd']

theorem mergeOptions_extends_mixins_order_witness :
    stratsLookup "foo" = none ∧ ("foo" : String) ≠ "extends" ∧
    ("foo" : String) ≠ "mixins" ∧
    getProp (mergeOptions (.obj [("foo", JSVal.num 1)] none)
      (.obj [("foo", JSVal.undefined),
             ("extends", .obj [("foo", JSVal.num 2)] none),
             ("mixins", .arr [.obj [("foo", JSVal.num 3)] none,
                              .obj [("foo", JSVal.num 4)] none])] none) none)
      "foo" = JSVal.num 4 := by
  refine ⟨by rfl, by simp, by simp, ?_⟩
  have h := mergeOptions_extends_mixins_order "foo" (JSVal.num 1)
    (JSVal.num 2) (JSVal.num 3) (JSVal.num 4) JSVal.undefined
    (by rfl) (by simp) (by simp)
  simpa [isUndefined] using h

/-!
## Lemmas for the field-merging pass (C8)
-/

lemma mem_dedupFirst :
    ∀ (l : List String) (seen : List String) (k : String),
      k ∈ dedupFirst seen l ↔ (k ∈ l ∧ k ∉ seen) := by
  intro l
  induction l with
  | nil => intro seen k; simp [dedupFirst]
  | cons k1 rest ih =>
      intro seen k
      by_cases hc : seen.contains k1
      · have hk1 : k1 ∈ seen := by
          simpa using hc
        simp only [dedupFirst, if_pos hc, ih]
        constructor
        · rintro ⟨hr, hs⟩
          exact ⟨List.mem_cons_of_mem _ hr, hs⟩
        · rintro ⟨hr, hs⟩
          rcases List.mem_cons.mp hr with rfl | hr
          · exact absurd hk1 hs
          · exact ⟨hr, hs⟩
      · have hk1 : k1 ∉ seen := by
          simpa using hc
        simp only [dedupFirst, if_neg hc]
        constructor
        · intro hmem
          rcases List.mem_cons.mp hmem with rfl | hmem
          · exact ⟨List.mem_cons_self _ _, hk1⟩
          · have := (ih (k1 :: seen) k).mp hmem
            rcases this with ⟨hr, hs⟩
            simp only [List.mem_cons, not_or] at hs
            exact ⟨List.mem_cons_of_mem _ hr, hs.2⟩
        · rintro ⟨hr, hs⟩
          rcases List.mem_cons.mp hr with rfl | hr
          · exact List.mem_cons_self _ _
          · by_cases hkk : k = k1
            · subst hkk
              exact List.mem_cons_self _ _
            · refine List.mem_cons_of_mem _ ?_
              exact (ih (k1 :: seen) k).mpr ⟨hr, by simp [hkk, hs]⟩

lemma dedupFirst_nodup :
    ∀ (l : List String) (seen : List String), (dedupFirst seen l).Nodup := by
  intro l
  induction l with
  | nil => intro seen; simp [dedupFirst]
  | cons k1 rest ih =>
      intro seen
      by_cases hc : seen.contains k1
      · simp only [dedupFirst, if_pos hc]
        exact ih seen
      · simp only [dedupFirst, if_neg hc]
        refine List.nodup_cons.mpr ⟨?_, ih (k1 :: seen)⟩
        intro hmem
        have := (mem_dedupFirst rest (k1 :: seen) k1).mp hmem
        simp at this

lemma dedupFirst_eq_self :
    ∀ (l : List String) (seen : List String), l.Nodup →
      (∀ k ∈ l, k ∉ seen) → dedupFirst seen l = l := by
  intro l
  induction l with
  | nil => intro seen _ _; rfl
  | cons k1 rest ih =>
      intro seen hnd hdisj
      have hk1 : k1 ∉ seen := hdisj k1 (List.mem_cons_self _ _)
      have hc : ¬ seen.contains k1 = true := by
        simpa using hk1
      simp only [dedupFirst, if_neg hc]
      have hnd2 := List.nodup_cons.mp hnd
      rw [ih (k1 :: seen) hnd2.2]
      intro k hk
      simp only [List.mem_cons, not_or]
      exact ⟨fun he => hnd2.1 (he ▸ hk), hdisj k (List.mem_cons_of_mem _ hk)⟩

lemma alSet_keys_new :
    ∀ (l : List (String × JSVal)) (k : String) (v : JSVal),
      alGet l k = none →
      (alSet l k v).map Prod.fst = l.map Prod.fst ++ [k] := by
  intro l
  induction l with
  | nil => intro k v _; rfl
  | cons hd rest ih =>
      intro k v h
      obtain ⟨k1, v1⟩ := hd
      simp only [alGet] at h
      by_cases hkk : k = k1
      · simp [hkk] at h
      · rw [if_neg hkk] at h
        simp only [alSet, if_neg (Ne.symm hkk), List.map_cons, ih k v h,
          List.cons_append]

/-- The field-merging fold over fresh keys appends exactly those keys. -/
lemma foldl_mergeField_keys (p c : JSVal) (vm : Option JSVal) :
    ∀ (ks : List String) (es : List (String × JSVal)), ks.Nodup →
      (∀ k ∈ ks, k ∉ es.map Prod.fst) →
      ∃ es2, ks.foldl (mergeField p c vm) (.obj es none) = .obj es2 none ∧
        es2.map Prod.fst = es.map Prod.fst ++ ks := by
  intro ks
  induction ks with
  | nil => intro es _ _; exact ⟨es, rfl, by simp⟩
  | cons k rest ih =>
      intro es hnd hfresh
      have hget : alGet es k = none :=
        (alGet_eq_none_iff es k).mpr (hfresh k (List.mem_cons_self _ _))
      have hkeys := alSet_keys_new es k
        (stratFor k (getProp p k) (getProp c k) vm k) hget
      have hnd2 := List.nodup_cons.mp hnd
      have hfresh2 : ∀ k2 ∈ rest, k2 ∉ (alSet es k
          (stratFor k (getProp p k) (getProp c k) vm k)).map Prod.fst := by
        intro k2 hk2
        rw [hkeys]
        simp only [List.mem_append, List.mem_singleton, not_or]
        exact ⟨hfresh k2 (List.mem_cons_of_mem _ hk2),
          fun he => hnd2.1 (he ▸ hk2)⟩
      obtain ⟨es2, h1, h2⟩ := ih _ hnd2.2 hfresh2
      refine ⟨es2, ?_, ?_⟩
      · simpa only [List.foldl_cons, mergeField, setJS] using h1
      · rw [h2, hkeys]
        simp

/-- C8: for plain parent and child configurations whose field values
stay inside the shapes on which every registered strategy completes in
the source (stratNoThrow: hook parents absent or arrays, asset and
watch parents absent or plain objects -- the shapes the data model
guarantees and mergeOptions itself produces), the field-merging pass
processes a key sequence that is duplicate-free and contains exactly
the keys of parent and child, and its result is a freshly built
prototype-less object whose own keys are exactly the processed keys
(the pass itself only reads parent and child: it is a pure function of
them).  Outside stratNoThrow the source pass throws inside a strategy
(for example parentVal.concat on a non-array hook parent) and nothing
is asserted. -/
theorem mergeFields_each_key_once
    (pOwn cOwn : List (String × JSVal)) (vm : Option JSVal)
    (hp : (pOwn.map Prod.fst).Nodup) (hc : (cOwn.map Prod.fst).Nodup)
    (hsafe : ∀ k2 ∈ pOwn.map Prod.fst ++ cOwn.map Prod.fst,
      stratNoThrow k2 (getProp (.obj pOwn none) k2)
        (getProp (.obj cOwn none) k2) = true) :
    ((mergeFields (.obj pOwn none) (.obj cOwn none) vm).2.Nodup)
    ∧ (∀ k2, k2 ∈ (mergeFields (.obj pOwn none) (.obj cOwn none) vm).2 ↔
        (k2 ∈ pOwn.map Prod.fst ∨ k2 ∈ cOwn.map Prod.fst))
    ∧ (∃ entries, (mergeFields (.obj pOwn none) (.obj cOwn none) vm).1 =
        .obj entries none ∧ entries.map Prod.fst =
          (mergeFields (.obj pOwn none) (.obj cOwn none) vm).2) := by
  have hforp : forInKeys (.obj pOwn none) = pOwn.map Prod.fst := by
    simp only [forInKeys, enumChainKeys]
    exact dedupFirst_eq_self _ _ hp (by simp)
  have hforc : forInKeys (.obj cOwn none) = cOwn.map Prod.fst := by
    simp only [forInKeys, enumChainKeys]
    exact dedupFirst_eq_self _ _ hc (by simp)
  have hmemck : ∀ k2, k2 ∈ (cOwn.map Prod.fst).filter
      (fun k => decide (hasOwnB (.obj pOwn none) k = false)) ↔
      (k2 ∈ cOwn.map Prod.fst ∧ alGet pOwn k2 = none) := by
    intro k2
    simp only [List.mem_filter, hasOwnB, decide_eq_true_eq]
    cases halg : alGet pOwn k2 with
    | none => simp
    | some x => simp
  have hnodup : ((mergeFields (.obj pOwn none) (.obj cOwn none) vm).2).Nodup := by
    simp only [mergeFields, hforp, hforc]
    refine List.Nodup.append hp (List.Nodup.filter _ hc) ?_
    intro a hap hac
    have := (hmemck a).mp hac
    exact ((alGet_eq_none_iff pOwn a).mp this.2) hap
  refine ⟨hnodup, ?_, ?_⟩
  · intro k2
    simp only [mergeFields, hforp, hforc, List.mem_append]
    constructor
    · rintro (h | h)
      · exact Or.inl h
      · exact Or.inr ((hmemck k2).mp h).1
    · rintro (h | h)
      · exact Or.inl h
      · by_cases hP : k2 ∈ pOwn.map Prod.fst
        · exact Or.inl hP
        · exact Or.inr ((hmemck k2).mpr
            ⟨h, (alGet_eq_none_iff pOwn k2).mpr hP⟩)
  · have hfresh : ∀ k2 ∈ (mergeFields (.obj pOwn none)
        (.obj cOwn none) vm).2, k2 ∉ (([] : List (String × JSVal)).map
          Prod.fst) := by
      intro k2 _
      simp
    obtain ⟨es2, h1, h2⟩ := foldl_mergeField_keys (.obj pOwn none)
      (.obj cOwn none) vm ((mergeFields (.obj pOwn none)
        (.obj cOwn none) vm).2) [] hnodup hfresh
    refine ⟨es2, ?_, ?_⟩
    · simpa only [mergeFields] using h1
    · rw [h2]
      simp

theorem mergeFields_each_key_once_witness :
    ((([("a", JSVal.num 1)] : List (String × JSVal)).map Prod.fst).Nodup) ∧
    ((([("b", JSVal.num 2)] : List (String × JSVal)).map Prod.fst).Nodup) ∧
    (stratNoThrow "a" (getProp (.obj [("a", JSVal.num 1)] none) "a")
      (getProp (.obj [("b", JSVal.num 2)] none) "a") = true) ∧
    (stratNoThrow "b" (getProp (.obj [("a", JSVal.num 1)] none) "b")
      (getProp (.obj [("b", JSVal.num 2)] none) "b") = true) ∧
    ((mergeFields (.obj [("a", JSVal.num 1)] none)
      (.obj [("b", JSVal.num 2)] none) none).2.Nodup) :=
  ⟨by simp, by simp, by rfl, by rfl,
   (mergeFields_each_key_once [("a", JSVal.num 1)] [("b", JSVal.num 2)]
      none (by simp) (by simp)
      (by
        intro k2 hk2
        simp at hk2
        rcases hk2 with rfl | rfl <;> rfl)).1⟩
